import Mathlib

/-!
Verification of the docread repository core: the context-window segmenter
(`src/matcher.rs`), the document-tree match extractor (`src/reader.rs`),
the archive lister (`src/ziphandler.rs`) and the per-source dispatch
(`src/reader.rs::process_files`), shallowly embedded over `List Char`
strings (one element per Unicode scalar value; every Rust byte index used
by the code sits on a char boundary, so char indices are a faithful
coordinate system).
-/

namespace Docread

/-- A string, as its sequence of Unicode scalar values. -/
abbrev Str := List Char

/-- Shorthand turning a Lean string literal into its scalar-value list. -/
def str (s : String) : Str := s.toList

/-- A compiled search pattern, abstracted by its matcher: `p s i` is
`some L` when the pattern (with leftmost-first semantics) matches the
length-`L` substring of `s` starting at scalar-value position `i`, and
`none` when no match starts at `i`.  This is the interface `regex::Regex`
presents to `find_iter`/`is_match`. -/
abbrev Pattern := Str → Nat → Option Nat

/-- The substring `&s[a..b]` of the Rust code (both endpoints are char
boundaries; here `a`, `b` are char positions). -/
def strSlice (s : Str) (a b : Nat) : Str := (s.drop a).take (b - a)

/-- `Regex::find_iter` scanning protocol: starting from cursor `i`, find
the next position with a match and emit `(start, end)`.  A non-empty match
advances the cursor to its end and records it in `lm` (the crate's
`last_match`).  An empty match advances the cursor by one position and is
emitted unless it sits exactly at the end of the previously emitted match —
the crate's "don't accept empty matches immediately following a match"
guard (`Some(e) == self.last_match`), in which case it is skipped and `lm`
is left unchanged.  `fuel` bounds the number of scanned positions; the
wrapper supplies enough of it. -/
def findAux (p : Pattern) (s : Str) : Nat → Nat → Option Nat → List (Nat × Nat)
  | 0, _, _ => []
  | fuel + 1, i, lm =>
    if i ≤ s.length then
      match p s i with
      | some L =>
        if L = 0 then
          if lm = some i then findAux p s fuel (i + 1) lm
          else (i, i) :: findAux p s fuel (i + 1) (some i)
        else (i, i + L) :: findAux p s fuel (i + L) (some (i + L))
      | none => findAux p s fuel (i + 1) lm
    else []

/-- All successive non-overlapping matches of `p` in `s`, in order; models
`re.find_iter(s)` from `src/matcher.rs` (no previous match at the start). -/
def reFindIter (p : Pattern) (s : Str) : List (Nat × Nat) :=
  findAux p s (s.length + 2) 0 none

/-- `re.is_match(s)`: the pattern matches somewhere in `s` (an empty match
at the end position counts, as in the regex crate). -/
def reIsMatch (p : Pattern) (s : Str) : Bool :=
  (List.range (s.length + 1)).any fun i => (p s i).isSome

/-- The `first_n_chars!` macro of `src/matcher.rs`:
`s.char_indices().nth(n).map(|(i, _)| &s[..i]).unwrap_or(s)` — the `n`-th
char exists exactly when `n < s.length`, and the byte slice before it holds
the first `n` chars; otherwise the whole string is returned. -/
def first_n_chars (s : Str) (n : Nat) : Str :=
  if n < s.length then s.take n else s

/-- The `last_n_chars!` macro of `src/matcher.rs`:
`s.char_indices().rev().nth(n - 1).map(|(i, _)| &s[i..len]).unwrap_or(s)`.
For `n = 0` the `usize` subtraction `n - 1` wraps to `2^64 - 1` in a release
build, `nth` of that index is `None`, and the whole string is returned (a
debug build panics on the same subtraction); this branch models the release
behavior.  For `1 ≤ n ≤ s.length` the `(n-1)`-th char from the end is the
`n`-th-from-last char and the slice from it is the last `n` chars; when
`n > s.length` the whole string is returned. -/
def last_n_chars (s : Str) (n : Nat) : Str :=
  if n = 0 then s
  else if n ≤ s.length then s.drop (s.length - n) else s

/-- `MatchTriple(preamble, matched, postamble)` from `src/matcher.rs`. -/
structure MatchTriple where
  preamble : Str
  matched : Str
  postamble : Str
deriving DecidableEq, BEq

/-- `MatchTriple::from_iter`: the first three elements become the fields,
missing elements default to the empty string. -/
def MatchTriple.fromList (l : List Str) : MatchTriple :=
  ⟨l.getD 0 [], l.getD 1 [], l.getD 2 []⟩

/-- `slice::chunks(3)`: consecutive chunks of three, the last possibly
shorter. -/
def chunks3 : List α → List (List α)
  | [] => []
  | [a] => [[a]]
  | [a, b] => [[a, b]]
  | a :: b :: c :: rest => [a, b, c] :: chunks3 rest

/-- The segment-accumulation loop of `segment_on_regex` (`src/matcher.rs`
lines 70–91): iterate over the matches carrying the Rust locals `start` and
`end_of_prev_match`; for each match push the postamble of the previous gap
(only when `end_of_prev_match > 0`), the preamble, and the matched text;
after the loop push the trailing postamble when text remains. -/
def segAux (s : Str) (ctx : Nat) : List (Nat × Nat) → Nat → Nat → List Str
  | [], start, _ =>
    if start < s.length then [first_n_chars (s.drop start) ctx] else []
  | (ms, me) :: rest, start, eopm =>
    let post := if 0 < eopm then [first_n_chars (strSlice s eopm ms) ctx] else []
    let preamble := last_n_chars (strSlice s start ms) ctx
    let matched := strSlice s ms me
    post ++ preamble :: matched :: segAux s ctx rest (ms + matched.length) me

/-- `segment_on_regex` from `src/matcher.rs`: build the flat segment list,
then group it into `MatchTriple`s by chunks of three. -/
def segment_on_regex (s : Str) (re : Pattern) (context_len : Nat) : List MatchTriple :=
  (chunks3 (segAux s context_len (reFindIter re s) 0 0)).map MatchTriple.fromList

/-- Matcher for a literal, non-empty word (e.g. the regex `b`): matches at
`i` exactly when the word starts there. -/
def litPat (w : Str) : Pattern := fun s i =>
  if w ≠ [] ∧ w.isPrefixOf (s.drop i) then some w.length else none

/-- Matcher for a one-char class (e.g. the regex `[ab]`). -/
def charPat (cs : Str) : Pattern := fun s i =>
  match (s.drop i).head? with
  | some c => if c ∈ cs then some 1 else none
  | none => none

/-- Matcher for the regex `a*`: at every position it matches the (possibly
empty) greedy run of `a`s. -/
def aStarPat : Pattern := fun s i =>
  some ((s.drop i).takeWhile (fun c => c = 'a')).length

/-- The postamble that `segment_on_regex` attaches to a triple whose match
ends at position `n`, as a function of the remaining matches: the first
`ctx` chars of the gap to the next match, or the trailing text after the
last match (absent when nothing remains). -/
def headPost (s : Str) (ctx : Nat) (n : Nat) : List (Nat × Nat) → Str
  | [] => if n < s.length then first_n_chars (s.drop n) ctx else []
  | (c, _) :: _ => first_n_chars (strSlice s n c) ctx

/-- The triple list `segment_on_regex` produces when every match is
non-empty and in bounds: one triple per match, `prev` being the end of the
previous match (initially `0`). -/
def alignedTriples (s : Str) (ctx : Nat) : Nat → List (Nat × Nat) → List MatchTriple
  | _, [] => []
  | prev, (a, b) :: rest =>
    ⟨last_n_chars (strSlice s prev a) ctx, strSlice s a b, headPost s ctx b rest⟩ ::
      alignedTriples s ctx b rest

/-- The generic JSON document tree (`serde_json::Value`) that
`read_docx(...).json()` produces, as consumed by `xtract_text_from_doctree`:
strings, arrays, objects, and `Null` (standing also for the numbers/booleans
the traversal never distinguishes from `Null`). -/
inductive Value where
  | null : Value
  | str : Str → Value
  | arr : List Value → Value
  | obj : List (Str × Value) → Value

/-- `serde_json` indexing `v[k]`: the field value of an object, `Null` for a
missing key or a non-object. -/
def Value.index : Value → Str → Value
  | .obj fields, k =>
    match fields.find? (fun f => f.1 == k) with
    | some f => f.2
    | none => .null
  | _, _ => .null

/-- `serde_json`'s `Value == &str` comparison: true exactly on an equal
string value. -/
def Value.eqStr : Value → Str → Bool
  | .str t, w => t == w
  | _, _ => false

def keyDocument : Str := str "document"
def keyChildren : Str := str "children"
def keyType : Str := str "type"
def keyData : Str := str "data"
def keyText : Str := str "text"
def valText : Str := str "text"

theorem sizeOf_list_append (l₁ l₂ : List Value) :
    sizeOf (l₁ ++ l₂) + 1 = sizeOf l₁ + sizeOf l₂ := by
  induction l₁ with
  | nil => simp; omega
  | cons a l ih => simp [ih]; omega

theorem index_sizeOf (v : Value) (k : Str) :
    v.index k = .null ∨ sizeOf (v.index k) < sizeOf v := by
  cases v with
  | null => left; rfl
  | str t => left; rfl
  | arr l => left; rfl
  | obj fields =>
    rw [Value.index]
    cases hf : fields.find? (fun f => f.1 == k) with
    | none => left; rfl
    | some f =>
      right
      have hmem := List.mem_of_find?_eq_some hf
      have hlt := List.sizeOf_lt_of_mem hmem
      obtain ⟨k', v'⟩ := f
      simp at hlt ⊢
      omega

theorem children_sizeOf_lt (child : Value) (k₁ k₂ : Str) (children : List Value)
    (h : (child.index k₁).index k₂ = .arr children) :
    sizeOf children < sizeOf child := by
  rcases index_sizeOf child k₁ with h1 | h1
  · rw [h1] at h
    exact Value.noConfusion h
  · rcases index_sizeOf (child.index k₁) k₂ with h2 | h2
    · rw [h2] at h
      exact Value.noConfusion h
    · rw [h] at h2
      have : sizeOf (Value.arr children) = 1 + sizeOf children := by simp
      omega

/-- The queue loop of `xtract_text_from_doctree` (`src/reader.rs` lines
273–284): pop the front; on a `"text"`-typed node take `data.text` as a
string (`as_str().unwrap()` — a non-string payload panics, modelled as
`none`) and keep it when the pattern matches; otherwise push the node's
`data.children` (if an array) to the back of the queue. -/
def xtractLoop (re : Pattern) (q : List Value) : Option (List Str) :=
  match q with
  | [] => some []
  | child :: rest =>
    if (child.index keyType).eqStr valText then
      match (child.index keyData).index keyText with
      | .str t =>
        (xtractLoop re rest).map fun acc => if reIsMatch re t then t :: acc else acc
      | _ => none
    else
      match h : (child.index keyData).index keyChildren with
      | .arr children => xtractLoop re (rest ++ children)
      | _ => xtractLoop re rest
termination_by sizeOf q
decreasing_by
  all_goals first
    | (simp <;> omega)
    | (have h1 := children_sizeOf_lt child keyData keyChildren children h
       have h2 := sizeOf_list_append rest children
       simp at h2 ⊢
       omega)

/-- `xtract_text_from_doctree` from `src/reader.rs`: seed the queue with
`root["document"]["children"]` (empty when that is not an array) and run the
loop; `none` models the `unwrap` panic on a text node without a string
payload. -/
def xtract_text_from_doctree (root : Value) (re : Pattern) : Option (List Str) :=
  match (root.index keyDocument).index keyChildren with
  | .arr children => xtractLoop re children
  | _ => some []

/-- Reference traversal used to state C6 and C10: the same queue loop, but
collecting every text payload regardless of the pattern (`none` under the
same panic condition). -/
def bfsTextsLoop (q : List Value) : Option (List Str) :=
  match q with
  | [] => some []
  | child :: rest =>
    if (child.index keyType).eqStr valText then
      match (child.index keyData).index keyText with
      | .str t => (bfsTextsLoop rest).map fun acc => t :: acc
      | _ => none
    else
      match h : (child.index keyData).index keyChildren with
      | .arr children => bfsTextsLoop (rest ++ children)
      | _ => bfsTextsLoop rest
termination_by sizeOf q
decreasing_by
  all_goals first
    | (simp <;> omega)
    | (have h1 := children_sizeOf_lt child keyData keyChildren children h
       have h2 := sizeOf_list_append rest children
       simp at h2 ⊢
       omega)

/-- Reference: every text payload the traversal dequeues, in traversal
order. -/
def bfsTexts (root : Value) : Option (List Str) :=
  match (root.index keyDocument).index keyChildren with
  | .arr children => bfsTextsLoop children
  | _ => some []

/-- `ZipEntry` from `src/ziphandler.rs`. -/
structure ZipEntry where
  archive_name : Str
  entry_name : Str
deriving DecidableEq

/-- `ZipEntry::get_fname` (`src/reader.rs` lines 72–76):
`format!("File: {} in {}", entry_name, archive_name)`. -/
def ZipEntry.get_fname (z : ZipEntry) : Str :=
  str "File: " ++ z.entry_name ++ str " in " ++ z.archive_name

/-- Following the spec's words (§4.1), for comparison with the code's
`get_fname`: archive-member identifiers are formatted as
`"member <name> in <archive>"`. -/
def specMemberLabel (z : ZipEntry) : Str :=
  str "member " ++ z.entry_name ++ str " in " ++ z.archive_name

/-- Rust `str::contains` for a literal needle: the needle occurs as a
contiguous substring of the haystack. -/
def containsSub : Str → Str → Bool
  | [], needle => needle.isPrefixOf []
  | hay@(_ :: rest), needle => needle.isPrefixOf hay || containsSub rest needle

def docxSuffix : Str := str ".docx"
def macosxMarker : Str := str "__MACOSX"

/-- `zip_to_zipentries` from `src/ziphandler.rs`: walk the archive's entry
names in index order, keeping those that end with `".docx"` and do not
contain `"__MACOSX"`; the archive is modelled by its entry-name list (the
I/O and corrupt-archive errors of the loop are outside this model). -/
def zip_to_zipentries (zip_path : Str) : List Str → List ZipEntry
  | [] => []
  | name :: rest =>
    if docxSuffix.isSuffixOf name && !containsSub name macosxMarker then
      ⟨zip_path, name⟩ :: zip_to_zipentries zip_path rest
    else
      zip_to_zipentries zip_path rest

/-- The per-source error taxonomy of §7 (pattern errors abort upstream and
never reach a source's result slot). -/
inductive PError where
  | ioError : PError
  | decodeError : PError
  | archiveError : PError
deriving DecidableEq

/-- A raw byte buffer. -/
abbrev Bytes := List Nat

/-- A file surrogate (`Box<dyn ReadIntoBuf>` in `src/reader.rs`): its
display name and the outcome its `read_into_buf` produces (a `RegularFile`
or `ZipEntry` read, with `IoError`/`ArchiveError` failures as data). -/
structure FileSourceM where
  fname : Str
  readBuf : Except PError Bytes

/-- A `SearchResult` (`src/reader.rs` lines 17–20); `none` in the payload
models a panic inside `xtract_text_from_doctree`. -/
structure SearchResultM where
  file_name : Str
  maybe_result : Option (Except PError (List Str))

/-- `parse_docx` (`src/reader.rs` lines 91–99): read the source's bytes,
decode them into a document tree (the external `read_docx` plus JSON
round-trip, abstracted as `decode`), then extract the matching runs. -/
def parse_docx (decode : Bytes → Except PError Value) (re : Pattern)
    (src : FileSourceM) : Option (Except PError (List Str)) :=
  match src.readBuf with
  | .error e => some (.error e)
  | .ok buffer =>
    match decode buffer with
    | .error e => some (.error e)
    | .ok data =>
      match xtract_text_from_doctree data re with
      | some runs => some (.ok runs)
      | none => none

/-- The dispatch stage of `process_files` (`src/reader.rs` lines 165–182):
one `SearchResult` per file surrogate, each produced by `parse_docx` on that
surrogate alone (the rayon `par_iter().map(...)` over the work list; the
output mutex and the printing sink are outside the model). -/
def process_files (decode : Bytes → Except PError Value) (re : Pattern)
    (srcs : List FileSourceM) : List SearchResultM :=
  srcs.map fun src => ⟨src.fname, parse_docx decode re src⟩

/-- The immediate child values of a JSON value. -/
def subvalues : Value → List Value
  | .arr l => l
  | .obj fs => fs.map fun f => f.2
  | _ => []

/-- A node whose `type` is `"text"` but whose `data.text` is not a string —
the shape on which `xtract_text_from_doctree` calls `unwrap` on `None`. -/
def isBadTextNode (v : Value) : Bool :=
  (v.index keyType).eqStr valText &&
    match (v.index keyData).index keyText with
    | .str _ => false
    | _ => true

theorem subvalues_sizeOf_lt (v c : Value) (hc : c ∈ subvalues v) :
    sizeOf c < sizeOf v := by
  cases v with
  | null => simp [subvalues] at hc
  | str t => simp [subvalues] at hc
  | arr l =>
    simp only [subvalues] at hc
    have := List.sizeOf_lt_of_mem hc
    simp
    omega
  | obj fs =>
    simp only [subvalues, List.mem_map] at hc
    obtain ⟨f, hf, hfc⟩ := hc
    have h1 := List.sizeOf_lt_of_mem hf
    obtain ⟨k', v'⟩ := f
    simp at h1 hfc
    subst hfc
    simp
    omega

/-- Following the claim's words (C10): the tree structurally contains some
node — itself or any nested value — whose kind tag is `"text"` but whose
payload lacks a string `text` field. -/
def hasBadTextNode (v : Value) : Bool :=
  isBadTextNode v || (subvalues v).attach.any fun c => hasBadTextNode c.1
termination_by sizeOf v
decreasing_by
  exact subvalues_sizeOf_lt v _ c.2

/-- A `"text"`-typed leaf node carrying the text `t`. -/
def textNode (t : Str) : Value :=
  .obj [(keyType, .str valText), (keyData, .obj [(keyText, .str t)])]

/-- An interior node of the given kind with the given children. -/
def innerNode (kind : Str) (children : List Value) : Value :=
  .obj [(keyType, .str kind), (keyData, .obj [(keyChildren, .arr children)])]

/-- A document root carrying the given top-level children. -/
def docRoot (children : List Value) : Value :=
  .obj [(keyDocument, .obj [(keyChildren, .arr children)])]

def nodeA1 : Value := textNode (str "A1")
def nodeB1 : Value := textNode (str "B1")
def nodeAown : Value := textNode (str "A")
def nodeBown : Value := textNode (str "B")
def nodeASub : Value := innerNode (str "para") [nodeA1]
def nodeBSub : Value := innerNode (str "para") [nodeB1]
def nodeA : Value := innerNode (str "para") [nodeAown, nodeASub]
def nodeB : Value := innerNode (str "para") [nodeBown, nodeBSub]

/-- The C5 scenario tree: siblings `A` and `B`; each holds its own matching
text (`"A"` / `"B"`) next to a deeper subtree whose text is `"A1"` /
`"B1"`. -/
def c5Tree : Value := docRoot [nodeA, nodeB]

/-- The pattern `[AB]` — it matches each of `"A"`, `"B"`, `"A1"`, `"B1"`. -/
def abPat : Pattern := charPat (str "AB")

/-- A pattern with no match anywhere. -/
def noPat : Pattern := fun _ _ => none

/-- A `"text"`-typed node with no `text` field in its payload. -/
def badTextNode : Value := .obj [(keyType, .str valText), (keyData, .obj [])]

/-- A node that carries a proper text payload but hides `badTextNode` in a
`children` array the traversal never visits (children of `"text"` nodes are
not enqueued). -/
def hiddenBadNode : Value :=
  .obj [(keyType, .str valText),
        (keyData, .obj [(keyText, .str (str "hi")), (keyChildren, .arr [badTextNode])])]

/-- A tree whose only bad text node is unreachable for the traversal. -/
def hiddenBadTree : Value := docRoot [hiddenBadNode]

/-- A tree whose bad text node is a top-level child, hence dequeued. -/
def reachableBadTree : Value := docRoot [textNode (str "ok"), badTextNode]

theorem strSlice_length (s : Str) (a b : Nat) (hab : a ≤ b) (hb : b ≤ s.length) :
    (strSlice s a b).length = b - a := by
  simp [strSlice]
  omega

/-- Grouping invariant of the segment loop: once a first preamble/match pair
`x, y` has been emitted and the cursor state is `n ≥ 1` (both `start` and
`end_of_prev_match` equal the previous match end), chunking the remaining
flat segments yields one aligned triple per remaining match. -/
theorem chunks3_segAux (s : Str) (ctx : Nat) (L : List (Nat × Nat))
    (hL : ∀ m ∈ L, m.1 < m.2 ∧ m.2 ≤ s.length) :
    ∀ x y n, 1 ≤ n →
      (chunks3 (x :: y :: segAux s ctx L n n)).map MatchTriple.fromList
        = ⟨x, y, headPost s ctx n L⟩ :: alignedTriples s ctx n L := by
  induction L with
  | nil =>
    intro x y n _
    by_cases h : n < s.length <;>
      simp [segAux, chunks3, headPost, alignedTriples, h, MatchTriple.fromList]
  | cons m rest ih =>
    intro x y n hn
    obtain ⟨a, b⟩ := m
    obtain ⟨hab, hbs⟩ := hL (a, b) (by simp)
    have hlen : (strSlice s a b).length = b - a :=
      strSlice_length s a b (Nat.le_of_lt hab) hbs
    have hstep : a + (strSlice s a b).length = b := by omega
    have hrest : ∀ m ∈ rest, m.1 < m.2 ∧ m.2 ≤ s.length := fun m hm =>
      hL m (List.mem_cons_of_mem _ hm)
    simp only [segAux, if_pos (Nat.lt_of_lt_of_le Nat.zero_lt_one hn), hstep,
      List.cons_append, List.nil_append, chunks3, List.map_cons]
    rw [ih hrest (last_n_chars (strSlice s n a) ctx) (strSlice s a b) b (by omega)]
    simp [headPost, alignedTriples, MatchTriple.fromList]

/-- When the pattern has at least one occurrence and every occurrence is
non-empty and in bounds, `segment_on_regex` produces exactly the aligned
triples of the match list. -/
theorem segment_on_regex_aligned (s : Str) (re : Pattern) (ctx : Nat)
    (hne : reFindIter re s ≠ [])
    (hL : ∀ m ∈ reFindIter re s, m.1 < m.2 ∧ m.2 ≤ s.length) :
    segment_on_regex s re ctx = alignedTriples s ctx 0 (reFindIter re s) := by
  unfold segment_on_regex
  obtain ⟨⟨a, b⟩, rest, hcons⟩ : ∃ m rest, reFindIter re s = m :: rest := by
    cases h : reFindIter re s with
    | nil => exact absurd h hne
    | cons m rest => exact ⟨m, rest, rfl⟩
  rw [hcons] at hL ⊢
  obtain ⟨hab, hbs⟩ := hL (a, b) (by simp)
  have hlen : (strSlice s a b).length = b - a :=
    strSlice_length s a b (Nat.le_of_lt hab) hbs
  have hstep : a + (strSlice s a b).length = b := by omega
  have hrest : ∀ m ∈ rest, m.1 < m.2 ∧ m.2 ≤ s.length := fun m hm =>
    hL m (List.mem_cons_of_mem _ hm)
  simp only [segAux, Nat.lt_irrefl, if_false, hstep, List.nil_append]
  rw [chunks3_segAux s ctx rest hrest (last_n_chars (strSlice s 0 a) ctx)
    (strSlice s a b) b (by omega)]
  simp [alignedTriples]

theorem xtractLoop_nil (re : Pattern) : xtractLoop re [] = some [] := by
  rw [xtractLoop]

theorem xtractLoop_cons_text (re : Pattern) (child : Value) (rest : List Value) (t : Str)
    (h1 : (child.index keyType).eqStr valText = true)
    (h2 : (child.index keyData).index keyText = .str t) :
    xtractLoop re (child :: rest)
      = (xtractLoop re rest).map fun acc => if reIsMatch re t then t :: acc else acc := by
  rw [xtractLoop]
  simp only [h1, if_true, h2]

theorem xtractLoop_cons_text_panic (re : Pattern) (child : Value) (rest : List Value)
    (h1 : (child.index keyType).eqStr valText = true)
    (h2 : ∀ t, (child.index keyData).index keyText ≠ .str t) :
    xtractLoop re (child :: rest) = none := by
  rw [xtractLoop]
  simp only [h1, if_true]

theorem xtractLoop_cons_children (re : Pattern) (child : Value) (rest children : List Value)
    (h1 : (child.index keyType).eqStr valText = false)
    (h2 : (child.index keyData).index keyChildren = .arr children) :
    xtractLoop re (child :: rest) = xtractLoop re (rest ++ children) := by
  rw [xtractLoop]
  simp only [h1, Bool.false_eq_true, if_false]
  split
  · rename_i children' heq
    rw [h2] at heq
    injection heq with h3
    subst h3
    rfl
  · rename_i hne
    exact absurd h2 (hne children)

theorem xtractLoop_cons_skip (re : Pattern) (child : Value) (rest : List Value)
    (h1 : (child.index keyType).eqStr valText = false)
    (h2 : ∀ ch, (child.index keyData).index keyChildren ≠ .arr ch) :
    xtractLoop re (child :: rest) = xtractLoop re rest := by
  rw [xtractLoop]
  simp only [h1, Bool.false_eq_true, if_false]

theorem bfsTextsLoop_nil : bfsTextsLoop [] = some [] := by
  rw [bfsTextsLoop]

theorem bfsTextsLoop_cons_text (child : Value) (rest : List Value) (t : Str)
    (h1 : (child.index keyType).eqStr valText = true)
    (h2 : (child.index keyData).index keyText = .str t) :
    bfsTextsLoop (child :: rest) = (bfsTextsLoop rest).map fun acc => t :: acc := by
  rw [bfsTextsLoop]
  simp only [h1, if_true, h2]

theorem bfsTextsLoop_cons_text_panic (child : Value) (rest : List Value)
    (h1 : (child.index keyType).eqStr valText = true)
    (h2 : ∀ t, (child.index keyData).index keyText ≠ .str t) :
    bfsTextsLoop (child :: rest) = none := by
  rw [bfsTextsLoop]
  simp only [h1, if_true]

theorem bfsTextsLoop_cons_children (child : Value) (rest children : List Value)
    (h1 : (child.index keyType).eqStr valText = false)
    (h2 : (child.index keyData).index keyChildren = .arr children) :
    bfsTextsLoop (child :: rest) = bfsTextsLoop (rest ++ children) := by
  rw [bfsTextsLoop]
  simp only [h1, Bool.false_eq_true, if_false]
  split
  · rename_i children' heq
    rw [h2] at heq
    injection heq with h3
    subst h3
    rfl
  · rename_i hne
    exact absurd h2 (hne children)

theorem bfsTextsLoop_cons_skip (child : Value) (rest : List Value)
    (h1 : (child.index keyType).eqStr valText = false)
    (h2 : ∀ ch, (child.index keyData).index keyChildren ≠ .arr ch) :
    bfsTextsLoop (child :: rest) = bfsTextsLoop rest := by
  rw [bfsTextsLoop]
  simp only [h1, Bool.false_eq_true, if_false]

/-- The extraction loop is the reference traversal filtered by the
pattern. -/
theorem xtractLoop_eq_filter (re : Pattern) (n : Nat) :
    ∀ q : List Value, sizeOf q ≤ n →
      xtractLoop re q = (bfsTextsLoop q).map (List.filter fun t => reIsMatch re t) := by
  induction n with
  | zero =>
    intro q hq
    exfalso
    cases q <;> simp at hq
  | succ n ih =>
    intro q hq
    cases q with
    | nil => rw [xtractLoop_nil, bfsTextsLoop_nil]; rfl
    | cons child rest =>
      have hrest : sizeOf rest ≤ n := by
        have : sizeOf (child :: rest) = 1 + sizeOf child + sizeOf rest := by simp <;> omega
        have hpos : 0 < sizeOf child := by cases child <;> simp <;> omega
        omega
      by_cases h1 : (child.index keyType).eqStr valText = true
      · cases h2 : (child.index keyData).index keyText with
        | str t =>
          rw [xtractLoop_cons_text re child rest t h1 h2,
            bfsTextsLoop_cons_text child rest t h1 h2, ih rest hrest]
          cases bfsTextsLoop rest with
          | none => rfl
          | some acc => simp [List.filter_cons]
        | null =>
          rw [xtractLoop_cons_text_panic re child rest h1 (by rw [h2]; intro t h; cases h),
            bfsTextsLoop_cons_text_panic child rest h1 (by rw [h2]; intro t h; cases h)]
          rfl
        | arr l =>
          rw [xtractLoop_cons_text_panic re child rest h1 (by rw [h2]; intro t h; cases h),
            bfsTextsLoop_cons_text_panic child rest h1 (by rw [h2]; intro t h; cases h)]
          rfl
        | obj fs =>
          rw [xtractLoop_cons_text_panic re child rest h1 (by rw [h2]; intro t h; cases h),
            bfsTextsLoop_cons_text_panic child rest h1 (by rw [h2]; intro t h; cases h)]
          rfl
      · have h1' : (child.index keyType).eqStr valText = false := by
          cases hb : (child.index keyType).eqStr valText with
          | true => exact absurd hb h1
          | false => rfl
        cases h2 : (child.index keyData).index keyChildren with
        | arr children =>
          have hq' : sizeOf (rest ++ children) ≤ n := by
            have ha := sizeOf_list_append rest children
            have hlt := children_sizeOf_lt child keyData keyChildren children h2
            have : sizeOf (child :: rest) = 1 + sizeOf child + sizeOf rest := by simp <;> omega
            omega
          rw [xtractLoop_cons_children re child rest children h1' h2,
            bfsTextsLoop_cons_children child rest children h1' h2, ih _ hq']
        | null =>
          rw [xtractLoop_cons_skip re child rest h1' (by rw [h2]; intro ch h; cases h),
            bfsTextsLoop_cons_skip child rest h1' (by rw [h2]; intro ch h; cases h),
            ih rest hrest]
        | str t =>
          rw [xtractLoop_cons_skip re child rest h1' (by rw [h2]; intro ch h; cases h),
            bfsTextsLoop_cons_skip child rest h1' (by rw [h2]; intro ch h; cases h),
            ih rest hrest]
        | obj fs =>
          rw [xtractLoop_cons_skip re child rest h1' (by rw [h2]; intro ch h; cases h),
            bfsTextsLoop_cons_skip child rest h1' (by rw [h2]; intro ch h; cases h),
            ih rest hrest]

/-- `xtract_text_from_doctree` is the reference BFS text collection
filtered by the pattern (and in particular panics exactly when the
reference traversal does). -/
theorem xtract_eq_filter_bfs (root : Value) (re : Pattern) :
    xtract_text_from_doctree root re
      = (bfsTexts root).map (List.filter fun t => reIsMatch re t) := by
  unfold xtract_text_from_doctree bfsTexts
  cases h : (root.index keyDocument).index keyChildren with
  | arr children => exact xtractLoop_eq_filter re (sizeOf children) children (Nat.le_refl _)
  | null => rfl
  | str t => rfl
  | obj fs => rfl

theorem first_n_chars_of_le (t : Str) (n : Nat) (h : t.length ≤ n) :
    first_n_chars t n = t := by
  unfold first_n_chars
  rw [if_neg (by omega)]

theorem last_n_chars_of_le (t : Str) (n : Nat) (h : t.length ≤ n) :
    last_n_chars t n = t := by
  unfold last_n_chars
  by_cases h0 : n = 0
  · rw [if_pos h0]
  · rw [if_neg h0]
    by_cases h1 : n ≤ t.length
    · rw [if_pos h1]
      have : t.length - n = 0 := by omega
      rw [this, List.drop_zero]
    · rw [if_neg h1]

theorem alignedTriples_map_matched (s : Str) (ctx : Nat) :
    ∀ (L : List (Nat × Nat)) (prev : Nat),
      (alignedTriples s ctx prev L).map MatchTriple.matched
        = L.map fun m => strSlice s m.1 m.2 := by
  intro L
  induction L with
  | nil => intro prev; rfl
  | cons m rest ih =>
    intro prev
    obtain ⟨a, b⟩ := m
    simp [alignedTriples, ih b]

theorem alignedTriples_mem_matched (s : Str) (ctx : Nat) :
    ∀ (L : List (Nat × Nat)) (prev : Nat) (t : MatchTriple),
      t ∈ alignedTriples s ctx prev L → ∃ m ∈ L, t.matched = strSlice s m.1 m.2 := by
  intro L
  induction L with
  | nil => intro prev t ht; simp [alignedTriples] at ht
  | cons m rest ih =>
    intro prev t ht
    obtain ⟨a, b⟩ := m
    rw [alignedTriples] at ht
    rcases List.mem_cons.mp ht with h | h
    · exact ⟨(a, b), by simp, by rw [h]⟩
    · obtain ⟨m, hm, hmt⟩ := ih b t h
      exact ⟨m, List.mem_cons_of_mem _ hm, hmt⟩

theorem alignedTriples_post_get (s : Str) (ctx : Nat) :
    ∀ (L : List (Nat × Nat)) (prev k a b c d : Nat),
      L[k]? = some (a, b) → L[k + 1]? = some (c, d) →
      ((alignedTriples s ctx prev L)[k]?).map MatchTriple.postamble
        = some (first_n_chars (strSlice s b c) ctx) := by
  intro L
  induction L with
  | nil => intro prev k a b c d h1 h2; simp at h1
  | cons m rest ih =>
    intro prev k a b c d h1 h2
    obtain ⟨a0, b0⟩ := m
    cases k with
    | zero =>
      simp at h1
      obtain ⟨ha, hb⟩ := h1
      subst ha hb
      simp at h2
      cases rest with
      | nil => simp at h2
      | cons m2 rest2 =>
        obtain ⟨c0, d0⟩ := m2
        simp at h2
        obtain ⟨hc, hd⟩ := h2
        subst hc hd
        simp [alignedTriples, headPost]
    | succ k =>
      simp only [List.getElem?_cons_succ] at h1 h2
      rw [alignedTriples]
      simp only [List.getElem?_cons_succ]
      exact ih b0 k a b c d h1 h2

theorem alignedTriples_pre_get (s : Str) (ctx : Nat) :
    ∀ (L : List (Nat × Nat)) (prev k a b c d : Nat),
      L[k]? = some (a, b) → L[k + 1]? = some (c, d) →
      ((alignedTriples s ctx prev L)[k + 1]?).map MatchTriple.preamble
        = some (last_n_chars (strSlice s b c) ctx) := by
  intro L
  induction L with
  | nil => intro prev k a b c d h1 h2; simp at h1
  | cons m rest ih =>
    intro prev k a b c d h1 h2
    obtain ⟨a0, b0⟩ := m
    cases k with
    | zero =>
      simp at h1
      obtain ⟨ha, hb⟩ := h1
      subst ha hb
      simp at h2
      cases rest with
      | nil => simp at h2
      | cons m2 rest2 =>
        obtain ⟨c0, d0⟩ := m2
        simp at h2
        obtain ⟨hc, hd⟩ := h2
        subst hc hd
        rw [alignedTriples]
        simp only [List.getElem?_cons_succ]
        rw [alignedTriples]
        simp
    | succ k =>
      simp only [List.getElem?_cons_succ] at h1 h2
      rw [alignedTriples]
      simp only [List.getElem?_cons_succ]
      exact ih b0 k a b c d h1 h2

theorem first_n_chars_length_le (t : Str) (n : Nat) :
    (first_n_chars t n).length ≤ n := by
  unfold first_n_chars
  by_cases h : n < t.length
  · rw [if_pos h]
    simp
  · rw [if_neg h]
    omega

theorem last_n_chars_length_le (t : Str) (n : Nat) (hn : 1 ≤ n) :
    (last_n_chars t n).length ≤ n := by
  unfold last_n_chars
  rw [if_neg (by omega)]
  by_cases h : n ≤ t.length
  · rw [if_pos h]
    simp
    omega
  · rw [if_neg h]
    omega

theorem alignedTriples_mem_windows (s : Str) (ctx : Nat) :
    ∀ (L : List (Nat × Nat)) (prev : Nat) (t : MatchTriple),
      t ∈ alignedTriples s ctx prev L →
        (∃ u, t.preamble = last_n_chars u ctx) ∧
          (t.postamble = [] ∨ ∃ u, t.postamble = first_n_chars u ctx) := by
  intro L
  induction L with
  | nil => intro prev t ht; simp [alignedTriples] at ht
  | cons m rest ih =>
    intro prev t ht
    obtain ⟨a, b⟩ := m
    rw [alignedTriples] at ht
    rcases List.mem_cons.mp ht with h | h
    · subst h
      refine ⟨⟨strSlice s prev a, rfl⟩, ?_⟩
      cases rest with
      | nil =>
        by_cases hb : b < s.length
        · exact Or.inr ⟨s.drop b, by simp [headPost, hb]⟩
        · exact Or.inl (by simp [headPost, hb])
      | cons m2 rest2 =>
        obtain ⟨c, d⟩ := m2
        exact Or.inr ⟨strSlice s b c, rfl⟩
    · exact ih b t h

/-- In the non-degenerate regime — `context_length ≥ 1` and every
occurrence non-empty and in bounds — every returned preamble and postamble
is bounded by the context length (in scalar values), which is what the
spec asserts in general and what C2/C8 show failing outside this regime. -/
theorem segment_windows_bounded (s : Str) (re : Pattern) (ctx : Nat)
    (hctx : 1 ≤ ctx) (hne : reFindIter re s ≠ [])
    (hL : ∀ m ∈ reFindIter re s, m.1 < m.2 ∧ m.2 ≤ s.length) :
    ∀ t ∈ segment_on_regex s re ctx,
      t.preamble.length ≤ ctx ∧ t.postamble.length ≤ ctx := by
  rw [segment_on_regex_aligned s re ctx hne hL]
  intro t ht
  obtain ⟨⟨u, hu⟩, hpost⟩ :=
    alignedTriples_mem_windows s ctx (reFindIter re s) 0 t ht
  refine ⟨by rw [hu]; exact last_n_chars_length_le u ctx hctx, ?_⟩
  rcases hpost with h | ⟨u2, hu2⟩
  · simp [h]
  · rw [hu2]
    exact first_n_chars_length_le u2 ctx

theorem hasBadTextNode_of_isBad (v : Value) (h : isBadTextNode v = true) :
    hasBadTextNode v = true := by
  rw [hasBadTextNode, h, Bool.true_or]

theorem hasBadTextNode_of_sub (v c : Value) (hc : c ∈ subvalues v)
    (h : hasBadTextNode c = true) : hasBadTextNode v = true := by
  rw [hasBadTextNode]
  apply Bool.or_eq_true_iff.mpr
  right
  rw [List.any_eq_true]
  exact ⟨⟨c, hc⟩, List.mem_attach _ _, h⟩

/-- C1 counterexample: on the run `"a"` the pattern `b` has zero
occurrences, yet `segment_on_regex` returns one `MatchTriple`
(`("a", "", "")`), not an empty sequence: the trailing-postamble push fires
for every non-empty run even without matches, and `chunks(3)` turns the
lone segment into a triple. -/
theorem c1_counterexample :
    reFindIter (litPat (str "b")) (str "a") = [] ∧
      segment_on_regex (str "a") (litPat (str "b")) 3 = [⟨str "a", [], []⟩] ∧
      (segment_on_regex (str "a") (litPat (str "b")) 3).length = 1 := by
  decide

/-- C1 amended: when the pattern has zero occurrences in the run,
`segment_on_regex` returns the empty sequence exactly when the run is
empty; a non-empty run yields one degenerate triple whose preamble is the
first `context_len` chars of the run and whose matched and postamble are
empty. -/
theorem c1_no_match_amended (s : Str) (re : Pattern) (ctx : Nat)
    (h : reFindIter re s = []) :
    segment_on_regex s re ctx
      = if s.length = 0 then [] else [⟨first_n_chars s ctx, [], []⟩] := by
  unfold segment_on_regex
  rw [h]
  cases s with
  | nil => rfl
  | cons c cs =>
    simp [segAux, chunks3, MatchTriple.fromList]

/-- Witness for C1 amended at the run `"xy"` and pattern `z`. -/
theorem c1_no_match_amended_witness :
    reFindIter (litPat (str "z")) (str "xy") = [] ∧
      segment_on_regex (str "xy") (litPat (str "z")) 4
        = (if (str "xy").length = 0 then []
            else [⟨first_n_chars (str "xy") 4, [], []⟩]) :=
  ⟨by decide, c1_no_match_amended (str "xy") (litPat (str "z")) 4 (by decide)⟩

/-- C2, evaluated at the failing input: on the run `"ab"`, pattern `b`,
`context_length = 0`, the returned preamble is `"a"` — one scalar value,
exceeding the configured bound of zero (`last_n_chars!` computes
`n - 1` in `usize`, which wraps for `n = 0` so no truncation happens; a
debug build panics on the same subtraction). -/
theorem c2_context_zero_bug :
    segment_on_regex (str "ab") (litPat (str "b")) 0 = [⟨str "a", str "b", []⟩] ∧
      ((segment_on_regex (str "ab") (litPat (str "b")) 0).map
          fun t => t.preamble.length) = [1] := by
  decide

/-- C3 counterexample: on the run `"xy"` the pattern `q` has no occurrence
at all, yet a `MatchTriple` exists and its matched component is the empty
string — so "matched is always non-empty when the triple exists" fails. -/
theorem c3_counterexample :
    reFindIter (litPat (str "q")) (str "xy") = [] ∧
      segment_on_regex (str "xy") (litPat (str "q")) 5 = [⟨str "xy", [], []⟩] ∧
      ((segment_on_regex (str "xy") (litPat (str "q")) 5).map
          fun t => t.matched) = [[]] := by
  decide

/-- C3 amended: when the pattern has at least one occurrence and every
occurrence is non-empty and in bounds, the matched components of the
returned triples are exactly the full matched substrings of the
occurrences, in order, and each is non-empty. -/
theorem c3_matched_amended (s : Str) (re : Pattern) (ctx : Nat)
    (hne : reFindIter re s ≠ [])
    (hL : ∀ m ∈ reFindIter re s, m.1 < m.2 ∧ m.2 ≤ s.length) :
    (segment_on_regex s re ctx).map MatchTriple.matched
        = (reFindIter re s).map (fun m => strSlice s m.1 m.2) ∧
      ∀ t ∈ segment_on_regex s re ctx, t.matched ≠ [] := by
  rw [segment_on_regex_aligned s re ctx hne hL]
  constructor
  · exact alignedTriples_map_matched s ctx (reFindIter re s) 0
  · intro t ht
    obtain ⟨m, hm, hmt⟩ := alignedTriples_mem_matched s ctx (reFindIter re s) 0 t ht
    obtain ⟨hab, hbs⟩ := hL m hm
    have hlen : t.matched.length = m.2 - m.1 := by
      rw [hmt]; exact strSlice_length s m.1 m.2 (Nat.le_of_lt hab) hbs
    exact List.ne_nil_of_length_pos (by omega)

/-- Witness for C3 amended on the spec's own example, run
`"Hello, world!"` with pattern `Hello`. -/
theorem c3_matched_amended_witness :
    reFindIter (litPat (str "Hello")) (str "Hello, world!") ≠ [] ∧
      (∀ m ∈ reFindIter (litPat (str "Hello")) (str "Hello, world!"),
        m.1 < m.2 ∧ m.2 ≤ (str "Hello, world!").length) ∧
      ((segment_on_regex (str "Hello, world!") (litPat (str "Hello")) 1000).map
            MatchTriple.matched
          = (reFindIter (litPat (str "Hello")) (str "Hello, world!")).map
              (fun m => strSlice (str "Hello, world!") m.1 m.2) ∧
        ∀ t ∈ segment_on_regex (str "Hello, world!") (litPat (str "Hello")) 1000,
          t.matched ≠ []) :=
  ⟨by decide, by decide,
    c3_matched_amended (str "Hello, world!") (litPat (str "Hello")) 1000
      (by decide) (by decide)⟩

/-- C4 counterexample: the code's `get_fname` labels the member
`test.docx` of `test.zip` as `"File: test.docx in test.zip"`, not as the
spec's `"member test.docx in test.zip"` (the repository's own unit test
asserts the `File:` form). -/
theorem c4_counterexample :
    ZipEntry.get_fname ⟨str "test.zip", str "test.docx"⟩
        = str "File: test.docx in test.zip" ∧
      specMemberLabel ⟨str "test.zip", str "test.docx"⟩
        = str "member test.docx in test.zip" ∧
      ((str "File: test.docx in test.zip") == (str "member test.docx in test.zip"))
        = false := by
  decide

/-- C4 amended: for every archive member, the identifier is formatted
exactly as `"File: <name> in <archive>"`. -/
theorem c4_identifier_amended (z : ZipEntry) :
    ZipEntry.get_fname z
      = str "File: " ++ z.entry_name ++ str " in " ++ z.archive_name := rfl

/-- C7: archive listing returns exactly the entries whose names end with
`".docx"` and do not contain `"__MACOSX"`, as `ZipEntry`s for the archive,
in archive order; in particular the repository's 3-entry test archive
(`test1.docx`, `test2.txt`, `test3.docx`) yields exactly the two docx
entries, in archive order. -/
theorem c7_listing_filter :
    (∀ (zip_path : Str) (entries : List Str),
        zip_to_zipentries zip_path entries
          = (entries.filter fun name =>
                docxSuffix.isSuffixOf name && !containsSub name macosxMarker).map
              fun name => ⟨zip_path, name⟩) ∧
      zip_to_zipentries (str "test.zip")
          [str "test1.docx", str "test2.txt", str "test3.docx"]
        = [⟨str "test.zip", str "test1.docx"⟩, ⟨str "test.zip", str "test3.docx"⟩] := by
  constructor
  · intro zip_path entries
    induction entries with
    | nil => rfl
    | cons name rest ih =>
      rw [zip_to_zipentries, List.filter_cons]
      by_cases h : (docxSuffix.isSuffixOf name && !containsSub name macosxMarker) = true <;>
        simp [h, ih]
  · decide

/-- C8 counterexample, in two parts.  (1) At `context_length = 0` on the
run `"axb"` with pattern `[ab]` (occurrences `(0,1)` and `(2,3)`, gap
`"x"`), the second triple's preamble is the whole gap `"x"` and not the
last-zero-characters window `""` of the gap.  (2) With the pattern `a*` on
`"baaaa"` at `context_length = 1`, the occurrences are `(0,0)` and `(1,5)`
(the trailing empty match at 5 is suppressed by `find_iter`'s
empty-after-match guard), adjacent with gap `"b"`, yet the preamble slot of
the second triple holds `"aaaa"` — not a window of the gap at all — because
the empty first match leaves `end_of_prev_match = 0`, the second match's
postamble push is skipped, and the grouping misaligns. -/
theorem c8_counterexample :
    (reFindIter (charPat (str "ab")) (str "axb") = [(0, 1), (2, 3)] ∧
        segment_on_regex (str "axb") (charPat (str "ab")) 0
          = [⟨[], str "a", []⟩, ⟨str "x", str "b", []⟩] ∧
        strSlice (str "axb") 1 2 = str "x" ∧
        ((str "x")
            == (strSlice (str "axb") 1 2).drop ((strSlice (str "axb") 1 2).length - 0))
          = false) ∧
      (reFindIter aStarPat (str "baaaa") = [(0, 0), (1, 5)] ∧
        segment_on_regex (str "baaaa") aStarPat 1
          = [⟨[], [], str "b"⟩, ⟨str "aaaa", [], []⟩] ∧
        ((str "aaaa") == last_n_chars (strSlice (str "baaaa") 0 1) 1) = false) := by
  decide

/-- C8 amended: when every occurrence is non-empty and in bounds, the
postamble of the `k`-th triple and the preamble of the `(k+1)`-th triple
are both computed from the same gap text between the adjacent occurrences —
`first_n_chars` resp. `last_n_chars` of the gap (the latter returning the
whole gap when `context_length = 0`, per the `usize` underflow) — and when
the gap has at most `context_length` chars both windows equal the entire
gap, duplicating its characters. -/
theorem c8_gap_windows_amended (s : Str) (re : Pattern) (ctx k a b c d : Nat)
    (hL : ∀ m ∈ reFindIter re s, m.1 < m.2 ∧ m.2 ≤ s.length)
    (h1 : (reFindIter re s)[k]? = some (a, b))
    (h2 : (reFindIter re s)[k + 1]? = some (c, d)) :
    ((segment_on_regex s re ctx)[k]?).map MatchTriple.postamble
        = some (first_n_chars (strSlice s b c) ctx) ∧
      ((segment_on_regex s re ctx)[k + 1]?).map MatchTriple.preamble
        = some (last_n_chars (strSlice s b c) ctx) ∧
      ((strSlice s b c).length ≤ ctx →
        ((segment_on_regex s re ctx)[k]?).map MatchTriple.postamble
            = some (strSlice s b c) ∧
          ((segment_on_regex s re ctx)[k + 1]?).map MatchTriple.preamble
            = some (strSlice s b c)) := by
  have hne : reFindIter re s ≠ [] := by
    intro hnil
    rw [hnil] at h1
    simp at h1
  rw [segment_on_regex_aligned s re ctx hne hL]
  refine ⟨alignedTriples_post_get s ctx (reFindIter re s) 0 k a b c d h1 h2,
    alignedTriples_pre_get s ctx (reFindIter re s) 0 k a b c d h1 h2, fun hgap => ?_⟩
  rw [alignedTriples_post_get s ctx (reFindIter re s) 0 k a b c d h1 h2,
    alignedTriples_pre_get s ctx (reFindIter re s) 0 k a b c d h1 h2,
    first_n_chars_of_le _ _ hgap, last_n_chars_of_le _ _ hgap]
  exact ⟨rfl, rfl⟩

/-- Witness for C8 amended: run `"aXbXc"`, pattern `X`, `context_length 5`;
the occurrences are `(1,2)` and `(3,4)` with gap `"b"`, shorter than the
context, so postamble of triple 0 and preamble of triple 1 both equal
`"b"`. -/
theorem c8_gap_windows_amended_witness :
    (∀ m ∈ reFindIter (litPat (str "X")) (str "aXbXc"),
        m.1 < m.2 ∧ m.2 ≤ (str "aXbXc").length) ∧
      (reFindIter (litPat (str "X")) (str "aXbXc"))[0]? = some (1, 2) ∧
      (reFindIter (litPat (str "X")) (str "aXbXc"))[0 + 1]? = some (3, 4) ∧
      (((segment_on_regex (str "aXbXc") (litPat (str "X")) 5)[0]?).map
            MatchTriple.postamble
          = some (first_n_chars (strSlice (str "aXbXc") 2 3) 5) ∧
        ((segment_on_regex (str "aXbXc") (litPat (str "X")) 5)[0 + 1]?).map
            MatchTriple.preamble
          = some (last_n_chars (strSlice (str "aXbXc") 2 3) 5) ∧
        ((strSlice (str "aXbXc") 2 3).length ≤ 5 →
          ((segment_on_regex (str "aXbXc") (litPat (str "X")) 5)[0]?).map
              MatchTriple.postamble
            = some (strSlice (str "aXbXc") 2 3) ∧
            ((segment_on_regex (str "aXbXc") (litPat (str "X")) 5)[0 + 1]?).map
              MatchTriple.preamble
            = some (strSlice (str "aXbXc") 2 3))) :=
  ⟨by decide, by decide, by decide,
    c8_gap_windows_amended (str "aXbXc") (litPat (str "X")) 5 0 1 2 3 4
      (by decide) (by decide) (by decide)⟩

/-- C9: the dispatch stage produces one result per source with no global
abort; the `i`-th result is exactly the identifier and `parse_docx` outcome
of the `i`-th source; a read failure yields that source's labeled error
result; and the `i`-th result is unchanged under any change to the other
sources. -/
theorem c9_per_source_isolation (decode : Bytes → Except PError Value)
    (re : Pattern) (srcs srcs2 : List FileSourceM) (i : Nat) (src : FileSourceM)
    (e : PError) (hsrc : srcs[i]? = some src) (hsrc2 : srcs2[i]? = some src) :
    (process_files decode re srcs).length = srcs.length ∧
      (process_files decode re srcs)[i]?
        = some ⟨src.fname, parse_docx decode re src⟩ ∧
      (src.readBuf = .error e →
        (process_files decode re srcs)[i]? = some ⟨src.fname, some (.error e)⟩) ∧
      (process_files decode re srcs)[i]? = (process_files decode re srcs2)[i]? := by
  refine ⟨List.length_map _ _, ?_, ?_, ?_⟩
  · rw [process_files, List.getElem?_map, hsrc]
    rfl
  · intro herr
    rw [process_files, List.getElem?_map, hsrc]
    simp [parse_docx, herr]
  · rw [process_files, List.getElem?_map, hsrc,
      process_files, List.getElem?_map, hsrc2]

/-- Witness for C9: two sources, the first failing with an `IoError`, next
to a one-source list sharing that first source. -/
theorem c9_per_source_isolation_witness :
    ([(⟨str "a.docx", .error .ioError⟩ : FileSourceM),
        ⟨str "b.docx", .ok []⟩][0]? = some ⟨str "a.docx", .error .ioError⟩) ∧
      ([(⟨str "a.docx", .error .ioError⟩ : FileSourceM)][0]?
        = some ⟨str "a.docx", .error .ioError⟩) ∧
      ((process_files (fun _ => .error .decodeError) noPat
            [⟨str "a.docx", .error .ioError⟩, ⟨str "b.docx", .ok []⟩]).length
          = ([(⟨str "a.docx", .error .ioError⟩ : FileSourceM),
              ⟨str "b.docx", .ok []⟩]).length ∧
        (process_files (fun _ => .error .decodeError) noPat
            [⟨str "a.docx", .error .ioError⟩, ⟨str "b.docx", .ok []⟩])[0]?
          = some ⟨(⟨str "a.docx", .error .ioError⟩ : FileSourceM).fname,
              parse_docx (fun _ => .error .decodeError) noPat
                ⟨str "a.docx", .error .ioError⟩⟩ ∧
        ((⟨str "a.docx", .error .ioError⟩ : FileSourceM).readBuf = .error .ioError →
          (process_files (fun _ => .error .decodeError) noPat
              [⟨str "a.docx", .error .ioError⟩, ⟨str "b.docx", .ok []⟩])[0]?
            = some ⟨(⟨str "a.docx", .error .ioError⟩ : FileSourceM).fname,
                some (.error .ioError)⟩) ∧
        (process_files (fun _ => .error .decodeError) noPat
            [⟨str "a.docx", .error .ioError⟩, ⟨str "b.docx", .ok []⟩])[0]?
          = (process_files (fun _ => .error .decodeError) noPat
              [⟨str "a.docx", .error .ioError⟩])[0]?) :=
  ⟨rfl, rfl,
    c9_per_source_isolation (fun _ => .error .decodeError) noPat
      [⟨str "a.docx", .error .ioError⟩, ⟨str "b.docx", .ok []⟩]
      [⟨str "a.docx", .error .ioError⟩] 0 ⟨str "a.docx", .error .ioError⟩
      .ioError rfl rfl⟩

/-- C6: every run `xtract_text_from_doctree` returns satisfies the pattern
and, conversely, every text leaf the traversal reaches whose text satisfies
the pattern is collected — the extraction equals the reference BFS text
collection filtered by `is_match`, including agreement on the panic case. -/
theorem c6_filter_characterization (root : Value) (re : Pattern) :
    xtract_text_from_doctree root re
      = (bfsTexts root).map (List.filter fun t => reIsMatch re t) :=
  xtract_eq_filter_bfs root re

/-- C5: on the scenario tree — siblings `A` and `B`, each with its own
matching text and a deeper matching subtree `A1` / `B1` — the queue-based
traversal returns the runs in breadth-first order `A, B, A1, B1`, not in
the depth-first document order `A, A1, B, B1`. -/
theorem c5_bfs_order :
    xtract_text_from_doctree c5Tree abPat
        = some [str "A", str "B", str "A1", str "B1"] ∧
      ((some [str "A", str "B", str "A1", str "B1"] : Option (List Str))
          == some [str "A", str "A1", str "B", str "B1"]) = false := by
  constructor
  · show xtractLoop abPat [nodeA, nodeB] = some [str "A", str "B", str "A1", str "B1"]
    rw [xtractLoop_cons_children abPat nodeA [nodeB] [nodeAown, nodeASub] rfl rfl]
    simp only [List.cons_append, List.nil_append]
    rw [xtractLoop_cons_children abPat nodeB [nodeAown, nodeASub] [nodeBown, nodeBSub]
      rfl rfl]
    simp only [List.cons_append, List.nil_append]
    rw [xtractLoop_cons_text abPat nodeAown [nodeASub, nodeBown, nodeBSub] (str "A")
      rfl rfl]
    rw [xtractLoop_cons_children abPat nodeASub [nodeBown, nodeBSub] [nodeA1] rfl rfl]
    simp only [List.cons_append, List.nil_append]
    rw [xtractLoop_cons_text abPat nodeBown [nodeBSub, nodeA1] (str "B") rfl rfl]
    rw [xtractLoop_cons_children abPat nodeBSub [nodeA1] [nodeB1] rfl rfl]
    simp only [List.cons_append, List.nil_append]
    rw [xtractLoop_cons_text abPat nodeA1 [nodeB1] (str "A1") rfl rfl]
    rw [xtractLoop_cons_text abPat nodeB1 [] (str "B1") rfl rfl]
    rw [xtractLoop_nil]
    decide
  · decide

/-- C10 counterexample: `hiddenBadTree` structurally contains a node whose
kind tag is `"text"` without a string text payload (under the `children` of
a text node), yet extraction returns a result (`some []`) rather than
panicking — the traversal never dequeues children of text nodes, so the
stated precondition over every text node in the tree is stronger than what
totality requires. -/
theorem c10_counterexample :
    hasBadTextNode hiddenBadTree = true ∧
      xtract_text_from_doctree hiddenBadTree noPat = some [] := by
  constructor
  · apply hasBadTextNode_of_sub hiddenBadTree
      (Value.obj [(keyChildren, Value.arr [hiddenBadNode])]) (List.Mem.head _)
    apply hasBadTextNode_of_sub _ (Value.arr [hiddenBadNode]) (List.Mem.head _)
    apply hasBadTextNode_of_sub _ hiddenBadNode (List.Mem.head _)
    apply hasBadTextNode_of_sub _
      (Value.obj [(keyText, Value.str (str "hi")), (keyChildren, Value.arr [badTextNode])])
      (List.Mem.tail _ (List.Mem.head _))
    apply hasBadTextNode_of_sub _ (Value.arr [badTextNode])
      (List.Mem.tail _ (List.Mem.head _))
    apply hasBadTextNode_of_sub _ badTextNode (List.Mem.head _)
    exact hasBadTextNode_of_isBad badTextNode rfl
  · show xtractLoop noPat [hiddenBadNode] = some []
    rw [xtractLoop_cons_text noPat hiddenBadNode [] (str "hi") rfl rfl]
    rw [xtractLoop_nil]
    decide

/-- C10 amended: extraction panics (`none`) exactly when the traversal
dequeues a `"text"`-kind node without a string text payload — equivalently,
exactly when the reference traversal `bfsTexts` does; on `reachableBadTree`,
whose bad node is a top-level child, it does panic. -/
theorem c10_panic_amended :
    xtract_text_from_doctree reachableBadTree noPat = none ∧
      ∀ (root : Value) (re : Pattern),
        (xtract_text_from_doctree root re = none ↔ bfsTexts root = none) := by
  constructor
  · show xtractLoop noPat [textNode (str "ok"), badTextNode] = none
    rw [xtractLoop_cons_text noPat (textNode (str "ok")) [badTextNode] (str "ok") rfl rfl]
    rw [xtractLoop_cons_text_panic noPat badTextNode [] rfl
      (fun t h => Value.noConfusion h)]
    rfl
  · intro root re
    rw [xtract_eq_filter_bfs root re]
    cases bfsTexts root <;> simp

end Docread
